import Mathlib

/-!
Verification development for the home-location-estimate pipeline.

The definitions below are a shallow embedding of the repository's Python
code: `dedupBurst`, `homePeriodPairs`, `uniqueClusterId`,
`determineHomeCluster`, `createClusterAggregatesQ` and `dbscan` embed the
functions of `twitter_homes/dbscan.py`; `getLocalizedDt` embeds
`DatetimeLocalizer.get_localized_dt` with the external time-zone services
as explicit fallible parameters; `run_all_measures` embeds
`main.run_all_measures` with Python-dict merge semantics; `haversine` and
`create_cluster_aggregates` embed the floating-point geometry over `ℝ`.
-/

namespace HomeLoc

/-! ## Data model -/

/-- One geotagged post, as read from the geotweets table: the timestamp
string, the two coordinate columns and the user id. -/
structure Record where
  created_at : String
  lon : ℚ
  lat : ℚ
  user_id : ℤ
deriving DecidableEq, Repr

/-- The result of localizing a record's timestamp: the parts of the local
datetime the pipeline inspects (Python `weekday()` with Monday = 0, `hour`,
and an absolute time used for time ranges). -/
structure LocalDT where
  weekday : ℕ
  hour : ℕ
  ts : ℚ
deriving DecidableEq, Repr

/-- Point classification produced by the clusterer. -/
inductive PtType
  | core
  | boundary
  | noise
deriving DecidableEq, Repr

/-- One row of the clusterer's output: an optional cluster id (null for
noise) and the point type. -/
structure Assignment where
  cluster_id : Option ℕ
  ptype : PtType
deriving DecidableEq, Repr

/-- One row of the cluster-aggregates table built by
`create_cluster_aggregates` (rational-valued pipeline version). -/
structure ClusterAgg where
  cluster_id : ℕ
  centroid_lon : ℚ
  centroid_lat : ℚ
  time_range : ℚ
  max_dist_from_centroid : ℚ
  count : ℕ
deriving DecidableEq, Repr

/-- The dict returned by `dbscan`, with the debug counters and the home
decision fields. -/
structure DbscanOut where
  clustering_attempted : ℕ
  n_dbscan_core_tweets : Option ℕ
  n_dbscan_boundary_tweets : Option ℕ
  n_dbscan_noise_tweets : Option ℕ
  n_burst_tweets : ℕ
  n_home_period_tweets : ℕ
  home_cluster_id : Option ℤ
  home_cluster_reason : Option String
  home_cluster_centroid_lon : Option ℚ
  home_cluster_centroid_lat : Option ℚ
  home_cluster_count : Option ℕ
deriving DecidableEq, Repr

/-! ## Burst deduplication

`df.groupby(["created_at", lon, lat]).first().reset_index()` groups by the
key tuple, keeps the first row of each group, and returns the groups in
ascending sorted order of the key (pandas sorts group keys by default). -/

/-- Grouping key of the burst-tweet deduplication. -/
abbrev BurstKey := String × ℚ × ℚ

/-- Key tuple `(created_at, lon, lat)` of a record. -/
def burstKey (r : Record) : BurstKey := (r.created_at, r.lon, r.lat)

/-- Lexicographic strict order on burst keys, as pandas sorts tuples of a
string and two floats. -/
def KeyLt (a b : BurstKey) : Prop :=
  a.1 < b.1 ∨ (a.1 = b.1 ∧ (a.2.1 < b.2.1 ∨ (a.2.1 = b.2.1 ∧ a.2.2 < b.2.2)))

instance (a b : BurstKey) : Decidable (KeyLt a b) := by
  unfold KeyLt
  exact inferInstance

/-- Insert a key into a strictly sorted key list, keeping it sorted and
duplicate-free. -/
def insertKeySorted (k : BurstKey) : List BurstKey → List BurstKey
  | [] => [k]
  | k' :: rest =>
    if k = k' then k' :: rest
    else if KeyLt k k' then k :: k' :: rest
    else k' :: insertKeySorted k rest

/-- The distinct burst keys of a record list, in ascending order. -/
def sortedBurstKeys (l : List Record) : List BurstKey :=
  l.foldl (fun acc r => insertKeySorted (burstKey r) acc) []

/-- Embedding of the burst-removal step: one record per distinct key (the
first record of the group in input order), groups listed in ascending key
order. -/
def dedupBurst (l : List Record) : List Record :=
  (sortedBurstKeys l).filterMap (fun k => l.find? (fun r => decide (burstKey r = k)))

/-! ## Time-zone localization -/

/-- Embedding of `DatetimeLocalizer.get_localized_dt`: parse the timestamp,
try to look up a zone from the coordinates and localize; a null zone, a
lookup exception or a localization exception all fall back to the naive
parsed timestamp (the bare `except` of the source). The external services
(`dateutil`, `timezonefinder`/`pytz`, `astimezone`) are parameters. -/
def getLocalizedDt {Dt Tz : Type} (parse : String → Dt)
    (lookupTz : ℚ → ℚ → Except Unit (Option Tz))
    (astimezone : Dt → Tz → Except Unit Dt) (tweet : Record) : Dt :=
  let dt := parse tweet.created_at
  match lookupTz tweet.lon tweet.lat with
  | Except.error _ => dt
  | Except.ok none => dt
  | Except.ok (some tz) =>
    match astimezone dt tz with
    | Except.error _ => dt
    | Except.ok dt2 => dt2

/-! ## Home-period filter -/

/-- Embedding of the two subsetting steps of `dbscan`: localize each
record, keep weekday ≤ 3 (Monday–Thursday), then keep hour ≥ 9 — the
literal comparison of the source, `dt.hour >= 9`. -/
def homePeriodPairs (loc : Record → LocalDT) (l : List Record) :
    List (Record × LocalDT) :=
  ((l.map (fun r => (r, loc r))).filter
      (fun rd => decide (rd.2.weekday ≤ 3))).filter
    (fun rd => decide (9 ≤ rd.2.hour))

/-! ## Home-cluster selection -/

/-- Python `max` over a column, seeded at the head. -/
def listMaxQ : List ℚ → ℚ
  | [] => 0
  | x :: xs => xs.foldl max x

/-- Python `min` over a column, seeded at the head. -/
def listMinQ : List ℚ → ℚ
  | [] => 0
  | x :: xs => xs.foldl min x

/-- Embedding of `unique_cluster_id`: compute the measure of the column;
if that value occurs exactly once in the column, return the cluster id of
the first row attaining it, else `none`. -/
def uniqueClusterId (aggs : List ClusterAgg) (col : ClusterAgg → ℚ)
    (measure : List ℚ → ℚ) : Option ℕ :=
  let value := measure (aggs.map col)
  if (aggs.map col).count value = 1 then
    ((aggs.filter (fun a => decide (col a = value))).head?).map
      (fun a => a.cluster_id)
  else
    none

/-- Embedding of `determine_home_cluster`: the ordered three-rule chain,
falling through to `(none, none)`. -/
def determineHomeCluster (aggs : List ClusterAgg) : Option ℕ × Option String :=
  match uniqueClusterId aggs (fun a => (a.count : ℚ)) listMaxQ with
  | some cid => (some cid, some "only one max cluster")
  | none =>
    match uniqueClusterId aggs (fun a => a.max_dist_from_centroid) listMinQ with
    | some cid => (some cid, some "cluster with minimum distance")
    | none =>
      match uniqueClusterId aggs (fun a => a.time_range) listMaxQ with
      | some cid => (some cid, some "cluster with maximum time range")
      | none => (none, none)

/-- Stated from the specification for comparison with the code: the rule's
unique winner, an aggregate strictly better than every other aggregate in
the column (`ltb x y` reads "x is strictly worse than y"). -/
def strictWinner (aggs : List ClusterAgg) (col : ClusterAgg → ℚ)
    (ltb : ℚ → ℚ → Bool) : Option ClusterAgg :=
  aggs.find? (fun a => aggs.all (fun b => decide (b = a) || ltb (col b) (col a)))

/-- Stated from the specification for comparison with the code: evaluate
the three rules in order — strictly-maximum count, strictly-minimum
dispersion, strictly-maximum time range — and return the first rule's
unique winner with its reason, or `(none, none)` when no rule has one. -/
def specHomeCluster (aggs : List ClusterAgg) : Option ℕ × Option String :=
  match strictWinner aggs (fun a => (a.count : ℚ)) (fun x y => decide (x < y)) with
  | some a => (some a.cluster_id, some "only one max cluster")
  | none =>
    match strictWinner aggs (fun a => a.max_dist_from_centroid)
        (fun x y => decide (y < x)) with
    | some a => (some a.cluster_id, some "cluster with minimum distance")
    | none =>
      match strictWinner aggs (fun a => a.time_range) (fun x y => decide (x < y)) with
      | some a => (some a.cluster_id, some "cluster with maximum time range")
      | none => (none, none)

/-! ## Cluster aggregates (rational pipeline version, distance abstract) -/

/-- One core point carried into aggregation: integer cluster id,
coordinates and absolute local time. -/
structure CoreRow where
  cluster_id : ℕ
  lon : ℚ
  lat : ℚ
  ts : ℚ
deriving DecidableEq, Repr

/-- Insert a natural number into a strictly sorted list. -/
def insertNatSorted (k : ℕ) : List ℕ → List ℕ
  | [] => [k]
  | k' :: rest =>
    if k = k' then k' :: rest
    else if k < k' then k :: k' :: rest
    else k' :: insertNatSorted k rest

/-- Distinct cluster ids in ascending order, as `unique()` followed by
`sort_values("cluster_id")`. -/
def sortedUniqueNat (l : List ℕ) : List ℕ :=
  l.foldl (fun acc k => insertNatSorted k acc) []

/-- One aggregate row: subset to the cluster, mean coordinates, time range,
and maximal distance from the centroid, for an abstract distance function
applied exactly as the source applies `haversine` — first the centroid pair
`(centroid[0], centroid[1])`, then the point's `(lon, lat)`. -/
def clusterAggOf (dist : ℚ → ℚ → ℚ → ℚ → ℚ) (rows : List CoreRow) (cid : ℕ) :
    ClusterAgg :=
  let grp := rows.filter (fun r => decide (r.cluster_id = cid))
  let n := grp.length
  let clon := (grp.map (fun r => r.lon)).sum / (n : ℚ)
  let clat := (grp.map (fun r => r.lat)).sum / (n : ℚ)
  { cluster_id := cid
    centroid_lon := clon
    centroid_lat := clat
    time_range :=
      listMaxQ (grp.map (fun r => r.ts)) - listMinQ (grp.map (fun r => r.ts))
    max_dist_from_centroid :=
      listMaxQ (grp.map (fun r => dist clon clat r.lon r.lat))
    count := n }

/-- Embedding of `create_cluster_aggregates` over the rational pipeline:
one aggregate per distinct cluster id, in ascending id order. -/
def createClusterAggregatesQ (dist : ℚ → ℚ → ℚ → ℚ → ℚ)
    (rows : List CoreRow) : List ClusterAgg :=
  (sortedUniqueNat (rows.map (fun r => r.cluster_id))).map (clusterAggOf dist rows)

/-! ## The dbscan pipeline -/

/-- Embedding of `twitter_homes.dbscan.dbscan`. The clusterer (turicreate),
the localizer and the distance function are parameters; everything else
follows the source: burst dedup, localization, weekday and hour filters,
the empty short-circuit, the clustering counters, the all-noise
short-circuit, the core-point restriction, aggregation, and the home
decision with the winner's centroid and count copied in. -/
def dbscan (loc : Record → LocalDT)
    (clusterer : List (ℚ × ℚ) → List Assignment)
    (dist : ℚ → ℚ → ℚ → ℚ → ℚ) (tweets : List Record) : DbscanOut :=
  let df := dedupBurst tweets
  let nBurst := tweets.length - df.length
  let hp := homePeriodPairs loc df
  let nHome := hp.length
  if hp.length = 0 then
    { clustering_attempted := 0
      n_dbscan_core_tweets := none
      n_dbscan_boundary_tweets := none
      n_dbscan_noise_tweets := none
      n_burst_tweets := nBurst
      n_home_period_tweets := nHome
      home_cluster_id := some (-1)
      home_cluster_reason := some "no tweets in desired time range"
      home_cluster_centroid_lon := none
      home_cluster_centroid_lat := none
      home_cluster_count := none }
  else
    let results := clusterer (hp.map (fun rd => (rd.1.lon, rd.1.lat)))
    let nCore := results.countP (fun a => decide (a.ptype = PtType.core))
    let nBoundary := results.countP (fun a => decide (a.ptype = PtType.boundary))
    let nNoise := results.countP (fun a => decide (a.ptype = PtType.noise))
    if results.all (fun a => decide (a.cluster_id = none)) then
      { clustering_attempted := 1
        n_dbscan_core_tweets := some nCore
        n_dbscan_boundary_tweets := some nBoundary
        n_dbscan_noise_tweets := some nNoise
        n_burst_tweets := nBurst
        n_home_period_tweets := nHome
        home_cluster_id := some (-1)
        home_cluster_reason := some "no clusters"
        home_cluster_centroid_lon := none
        home_cluster_centroid_lat := none
        home_cluster_count := none }
    else
      let merged := hp.zip results
      let coreRows :=
        (merged.filter (fun pa => decide (pa.2.ptype = PtType.core))).filterMap
          (fun pa => pa.2.cluster_id.map
            (fun cid => CoreRow.mk cid pa.1.1.lon pa.1.1.lat pa.1.2.ts))
      let aggs := createClusterAggregatesQ dist coreRows
      let hdec := determineHomeCluster aggs
      let base : DbscanOut :=
        { clustering_attempted := 1
          n_dbscan_core_tweets := some nCore
          n_dbscan_boundary_tweets := some nBoundary
          n_dbscan_noise_tweets := some nNoise
          n_burst_tweets := nBurst
          n_home_period_tweets := nHome
          home_cluster_id := hdec.1.map (fun cid => (cid : ℤ))
          home_cluster_reason := hdec.2
          home_cluster_centroid_lon := none
          home_cluster_centroid_lat := none
          home_cluster_count := none }
      match hdec.1 with
      | none => base
      | some cid =>
        match aggs.find? (fun a => decide (a.cluster_id = cid)) with
        | none => base
        | some a =>
          { base with
            home_cluster_centroid_lon := some a.centroid_lon
            home_cluster_centroid_lat := some a.centroid_lat
            home_cluster_count := some a.count }

/-! ## Measure merging -/

/-- Python dict single-key update: replace the value in place if the key
is present, else append the pair. -/
def dictInsert {V : Type} (d : List (String × V)) (k : String) (v : V) :
    List (String × V) :=
  if d.any (fun kv => decide (kv.1 = k)) then
    d.map (fun kv => if kv.1 = k then (k, v) else kv)
  else d ++ [(k, v)]

/-- Python `\x7b**a, **b\x7d` merge: update `a` with the pairs of `b` in
order. -/
def dictMerge {V : Type} (a b : List (String × V)) : List (String × V) :=
  b.foldl (fun d kv => dictInsert d kv.1 kv.2) a

/-- One measure function of the registry: its `__name__` and a body
returning either a scalar or a dict. -/
structure UserMeasure (I V : Type) where
  name : String
  fn : I → V ⊕ List (String × V)

/-- The dict a measure contributes: a scalar is wrapped as a singleton
dict keyed by the function's name. -/
def measureOutput {I V : Type} (m : UserMeasure I V) (input : I) :
    List (String × V) :=
  match m.fn input with
  | Sum.inl v => [(m.name, v)]
  | Sum.inr d => d

/-- Embedding of `main.run_all_measures`: fold Python-dict merging of each
measure's output over an initially empty dict. -/
def run_all_measures {I V : Type} (measures : List (UserMeasure I V))
    (input : I) : List (String × V) :=
  measures.foldl (fun results m => dictMerge results (measureOutput m input)) []

/-- First-match lookup in an association list modelling a Python dict. -/
def dictLookup {V : Type} (d : List (String × V)) (k : String) : Option V :=
  match d with
  | [] => none
  | kv :: rest => if kv.1 = k then some kv.2 else dictLookup rest k

/-! ## Haversine geometry over the reals -/

noncomputable section

/-- Earth radius constant of the source, in meters. -/
def earthRadius : ℝ := 6372800

/-- Degree-to-radian conversion (`numpy.radians`). -/
def radians (x : ℝ) : ℝ := x * Real.pi / 180

/-- Embedding of `haversine(lat1, lon1, lat2, lon2)` from the source. -/
def haversine (lat1 lon1 lat2 lon2 : ℝ) : ℝ :=
  let dLat := radians (lat2 - lat1)
  let dLon := radians (lon2 - lon1)
  let a := Real.sin (dLat / 2) ^ 2 +
    Real.cos (radians lat1) * Real.cos (radians lat2) * Real.sin (dLon / 2) ^ 2
  earthRadius * (2 * Real.arcsin (Real.sqrt a))

/-- A core point with real coordinates, as aggregated by
`create_cluster_aggregates`. -/
structure CorePt where
  cluster_id : ℕ
  lon : ℝ
  lat : ℝ
  ts : ℝ

/-- Maximum of a real column, seeded at the head. -/
def listMaxR : List ℝ → ℝ
  | [] => 0
  | x :: xs => xs.foldl max x

/-- Minimum of a real column, seeded at the head. -/
def listMinR : List ℝ → ℝ
  | [] => 0
  | x :: xs => xs.foldl min x

/-- One row of `create_cluster_aggregates` over the reals. The source
calls `haversine(cluster_centroid[0], cluster_centroid[1], lons, lats)`,
so the centroid longitude is passed to the `lat1` parameter and the point
longitudes to the `lat2` parameter — preserved here verbatim. -/
structure ClusterAggR where
  cluster_id : ℕ
  centroid_lon : ℝ
  centroid_lat : ℝ
  time_range : ℝ
  max_dist_from_centroid : ℝ
  count : ℕ

/-- The aggregate row of one cluster id, over the reals. -/
def clusterAggROf (rows : List CorePt) (cid : ℕ) : ClusterAggR :=
  let grp := rows.filter (fun r => decide (r.cluster_id = cid))
  let n := grp.length
  let clon := (grp.map (fun r => r.lon)).sum / (n : ℝ)
  let clat := (grp.map (fun r => r.lat)).sum / (n : ℝ)
  { cluster_id := cid
    centroid_lon := clon
    centroid_lat := clat
    time_range :=
      listMaxR (grp.map (fun r => r.ts)) - listMinR (grp.map (fun r => r.ts))
    max_dist_from_centroid :=
      listMaxR (grp.map (fun r => haversine clon clat r.lon r.lat))
    count := n }

/-- Embedding of `create_cluster_aggregates` over the reals. -/
def create_cluster_aggregates (rows : List CorePt) : List ClusterAggR :=
  (sortedUniqueNat (rows.map (fun r => r.cluster_id))).map (clusterAggROf rows)

/-- Stated from the specification for comparison with the code: the
maximum great-circle haversine distance in meters from the centroid (mean
longitude, mean latitude) to any core point of the cluster, with the
latitudes bound to the `lat` parameters and the longitudes to the `lon`
parameters of the haversine formula. -/
def specMaxDistFromCentroid (rows : List CorePt) (cid : ℕ) : ℝ :=
  let grp := rows.filter (fun r => decide (r.cluster_id = cid))
  let clon := (grp.map (fun r => r.lon)).sum / (grp.length : ℝ)
  let clat := (grp.map (fun r => r.lat)).sum / (grp.length : ℝ)
  listMaxR (grp.map (fun r => haversine clat clon r.lat r.lon))

/-- Two core points of one cluster, both at latitude 60 with longitudes
0 and 360, so the centroid is at longitude 180, latitude 60 and each point
lies 180 longitude degrees from the centroid. -/
def c2rows : List CorePt := [⟨0, 0, 60, 0⟩, ⟨0, 360, 60, 0⟩]

end

/-! ## Theorems -/

/-- Claim C8: when the time-zone lookup yields no recognizable zone, or
raises, or localizing raises, `get_localized_dt` returns the record's
naive parsed timestamp — the hypothesis states that no zone both comes
back successfully and localizes successfully, which covers exactly the
null-zone, lookup-failure and localization-failure cases. -/
theorem get_localized_dt_falls_back_to_naive {Dt Tz : Type}
    (parse : String → Dt) (lookupTz : ℚ → ℚ → Except Unit (Option Tz))
    (astimezone : Dt → Tz → Except Unit Dt) (tweet : Record)
    (h : ∀ tz : Tz, lookupTz tweet.lon tweet.lat = Except.ok (some tz) →
      astimezone (parse tweet.created_at) tz = Except.error ()) :
    getLocalizedDt parse lookupTz astimezone tweet = parse tweet.created_at := by
  unfold getLocalizedDt
  cases hl : lookupTz tweet.lon tweet.lat with
  | error e => rfl
  | ok o =>
    cases o with
    | none => rfl
    | some tz => simp [h tz hl]

theorem get_localized_dt_falls_back_witness :
    getLocalizedDt (fun _ => (0 : ℕ))
      (fun _ _ => (Except.error () : Except Unit (Option Unit)))
      (fun dt _ => Except.ok dt) ⟨"x", 0, 0, 1⟩ = 0 :=
  get_localized_dt_falls_back_to_naive _ _ _ _ (fun _ htz => by simp at htz)

/-- Claim C3, evaluation at the failing input: a record localized to
Monday (weekday 0) at 10:00 local time is retained by the home-period
filter, although 10 is far below the claimed 21:00 cutoff — the source
filters `dt.hour >= 9`, keeping daytime records. -/
theorem home_period_filter_retains_morning_hours :
    homePeriodPairs (fun _ => ⟨0, 10, 0⟩) [⟨"a", 0, 0, 1⟩]
      = [(⟨"a", 0, 0, 1⟩, ⟨0, 10, 0⟩)] ∧ ¬ (21 ≤ 10) :=
  ⟨rfl, by decide⟩

/-- Claim C5: when no record survives deduplication, localization and
home-period filtering, `dbscan` returns the sentinel `-1` with reason
"no tweets in desired time range", null centroid and count, and its
result does not depend on the clusterer at all. -/
theorem dbscan_empty_home_period (loc : Record → LocalDT)
    (clusterer clusterer' : List (ℚ × ℚ) → List Assignment)
    (dist : ℚ → ℚ → ℚ → ℚ → ℚ) (tweets : List Record)
    (h : homePeriodPairs loc (dedupBurst tweets) = []) :
    dbscan loc clusterer dist tweets =
      { clustering_attempted := 0
        n_dbscan_core_tweets := none
        n_dbscan_boundary_tweets := none
        n_dbscan_noise_tweets := none
        n_burst_tweets := tweets.length - (dedupBurst tweets).length
        n_home_period_tweets := 0
        home_cluster_id := some (-1)
        home_cluster_reason := some "no tweets in desired time range"
        home_cluster_centroid_lon := none
        home_cluster_centroid_lat := none
        home_cluster_count := none } ∧
      dbscan loc clusterer dist tweets = dbscan loc clusterer' dist tweets := by
  unfold dbscan
  simp [h]

theorem dbscan_empty_home_period_witness :
    (dbscan (fun _ => ⟨4, 23, 0⟩)
        (fun pts => pts.map (fun _ => ⟨some 0, PtType.core⟩))
        (fun _ _ _ _ => 0) [⟨"a", 0, 0, 1⟩]).home_cluster_reason
      = some "no tweets in desired time range" := by
  rw [(dbscan_empty_home_period (fun _ => ⟨4, 23, 0⟩)
    (fun pts => pts.map (fun _ => ⟨some 0, PtType.core⟩)) (fun _ => [])
    (fun _ _ _ _ => 0) [⟨"a", 0, 0, 1⟩] rfl).1]

/-- Claim C6: when clustering runs and every point comes back with a null
cluster id, `dbscan` returns the sentinel `-1` with reason "no clusters"
and null centroid and count. -/
theorem dbscan_all_noise (loc : Record → LocalDT)
    (clusterer : List (ℚ × ℚ) → List Assignment)
    (dist : ℚ → ℚ → ℚ → ℚ → ℚ) (tweets : List Record)
    (h1 : homePeriodPairs loc (dedupBurst tweets) ≠ [])
    (h2 : ∀ a ∈ clusterer ((homePeriodPairs loc (dedupBurst tweets)).map
        (fun rd => (rd.1.lon, rd.1.lat))), a.cluster_id = none) :
    (dbscan loc clusterer dist tweets).home_cluster_id = some (-1) ∧
    (dbscan loc clusterer dist tweets).home_cluster_reason = some "no clusters" ∧
    (dbscan loc clusterer dist tweets).home_cluster_centroid_lon = none ∧
    (dbscan loc clusterer dist tweets).home_cluster_centroid_lat = none ∧
    (dbscan loc clusterer dist tweets).home_cluster_count = none := by
  unfold dbscan
  have hlen : ¬ (homePeriodPairs loc (dedupBurst tweets)).length = 0 := by
    simpa [List.length_eq_zero] using h1
  have hall : (clusterer ((homePeriodPairs loc (dedupBurst tweets)).map
      (fun rd => (rd.1.lon, rd.1.lat)))).all
        (fun a => decide (a.cluster_id = none)) = true := by
    rw [List.all_eq_true]
    intro a ha
    simpa using h2 a ha
  simp [hlen, hall]

theorem dbscan_all_noise_witness :
    (dbscan (fun _ => ⟨0, 23, 0⟩)
        (fun pts => pts.map (fun _ => ⟨none, PtType.noise⟩))
        (fun _ _ _ _ => 0) [⟨"a", 0, 0, 1⟩]).home_cluster_reason
      = some "no clusters" :=
  (dbscan_all_noise _ _ _ _ (by decide) (by decide)).2.1

theorem countP_ptype_partition (l : List Assignment) :
    l.countP (fun a => decide (a.ptype = PtType.core)) +
      l.countP (fun a => decide (a.ptype = PtType.boundary)) +
      l.countP (fun a => decide (a.ptype = PtType.noise)) = l.length := by
  induction l with
  | nil => rfl
  | cons x xs ih =>
    simp only [List.countP_cons, List.length_cons]
    cases hx : x.ptype <;> simp [hx] <;> omega

/-- Claim C10: `clustering_attempted` is 1 exactly when at least one
record survives the home-period filter, and in the empty case all three
dbscan counters are null, not zero. -/
theorem dbscan_attempted_iff_nonempty (loc : Record → LocalDT)
    (clusterer : List (ℚ × ℚ) → List Assignment)
    (dist : ℚ → ℚ → ℚ → ℚ → ℚ) (tweets : List Record) :
    ((dbscan loc clusterer dist tweets).clustering_attempted = 1 ↔
      homePeriodPairs loc (dedupBurst tweets) ≠ []) ∧
    (homePeriodPairs loc (dedupBurst tweets) = [] →
      (dbscan loc clusterer dist tweets).clustering_attempted = 0 ∧
      (dbscan loc clusterer dist tweets).n_dbscan_core_tweets = none ∧
      (dbscan loc clusterer dist tweets).n_dbscan_boundary_tweets = none ∧
      (dbscan loc clusterer dist tweets).n_dbscan_noise_tweets = none) := by
  by_cases h : homePeriodPairs loc (dedupBurst tweets) = []
  · unfold dbscan
    simp [h]
  · have hlen : ¬ (homePeriodPairs loc (dedupBurst tweets)).length = 0 := by
      simpa [List.length_eq_zero] using h
    refine ⟨?_, fun h' => absurd h' h⟩
    have h1 : (dbscan loc clusterer dist tweets).clustering_attempted = 1 := by
      unfold dbscan
      rw [if_neg hlen]
      dsimp only
      split
      · rfl
      · split
        · rfl
        · split <;> rfl
    simp [h1, h]

theorem dbscan_attempted_iff_nonempty_witness :
    (dbscan (fun _ => ⟨4, 23, 0⟩) (fun _ => []) (fun _ _ _ _ => 0)
        [⟨"a", 0, 0, 1⟩]).n_dbscan_core_tweets = none :=
  ((dbscan_attempted_iff_nonempty (fun _ => ⟨4, 23, 0⟩) (fun _ => [])
    (fun _ _ _ _ => 0) [⟨"a", 0, 0, 1⟩]).2 rfl).2.1

/-- Claim C7: whenever clustering is attempted, the three counters are
populated with the counts of core, boundary and noise assignments, and
they sum to the number of points handed to the clusterer. -/
theorem dbscan_counters_sum (loc : Record → LocalDT)
    (clusterer : List (ℚ × ℚ) → List Assignment)
    (dist : ℚ → ℚ → ℚ → ℚ → ℚ) (tweets : List Record)
    (h1 : homePeriodPairs loc (dedupBurst tweets) ≠ [])
    (h2 : (clusterer ((homePeriodPairs loc (dedupBurst tweets)).map
        (fun rd => (rd.1.lon, rd.1.lat)))).length
      = ((homePeriodPairs loc (dedupBurst tweets)).map
        (fun rd => (rd.1.lon, rd.1.lat))).length) :
    ∃ a b c : ℕ,
      (dbscan loc clusterer dist tweets).n_dbscan_core_tweets = some a ∧
      (dbscan loc clusterer dist tweets).n_dbscan_boundary_tweets = some b ∧
      (dbscan loc clusterer dist tweets).n_dbscan_noise_tweets = some c ∧
      a + b + c = ((homePeriodPairs loc (dedupBurst tweets)).map
        (fun rd => (rd.1.lon, rd.1.lat))).length := by
  have hlen : ¬ (homePeriodPairs loc (dedupBurst tweets)).length = 0 := by
    simpa [List.length_eq_zero] using h1
  set res := clusterer ((homePeriodPairs loc (dedupBurst tweets)).map
    (fun rd => (rd.1.lon, rd.1.lat))) with hres
  refine ⟨res.countP (fun a => decide (a.ptype = PtType.core)),
    res.countP (fun a => decide (a.ptype = PtType.boundary)),
    res.countP (fun a => decide (a.ptype = PtType.noise)), ?_, ?_, ?_, ?_⟩
  · unfold dbscan
    rw [if_neg hlen]
    dsimp only
    split
    · rfl
    · split
      · rfl
      · split <;> rfl
  · unfold dbscan
    rw [if_neg hlen]
    dsimp only
    split
    · rfl
    · split
      · rfl
      · split <;> rfl
  · unfold dbscan
    rw [if_neg hlen]
    dsimp only
    split
    · rfl
    · split
      · rfl
      · split <;> rfl
  · rw [countP_ptype_partition res]
    exact h2

theorem dbscan_counters_sum_witness :
    ∃ a b c : ℕ,
      (dbscan (fun _ => ⟨0, 23, 0⟩)
          (fun pts => pts.map (fun _ => ⟨none, PtType.noise⟩))
          (fun _ _ _ _ => 0) [⟨"a", 0, 0, 1⟩]).n_dbscan_core_tweets = some a ∧
      (dbscan (fun _ => ⟨0, 23, 0⟩)
          (fun pts => pts.map (fun _ => ⟨none, PtType.noise⟩))
          (fun _ _ _ _ => 0) [⟨"a", 0, 0, 1⟩]).n_dbscan_boundary_tweets = some b ∧
      (dbscan (fun _ => ⟨0, 23, 0⟩)
          (fun pts => pts.map (fun _ => ⟨none, PtType.noise⟩))
          (fun _ _ _ _ => 0) [⟨"a", 0, 0, 1⟩]).n_dbscan_noise_tweets = some c ∧
      a + b + c = ((homePeriodPairs (fun _ => ⟨0, 23, 0⟩)
        (dedupBurst [⟨"a", 0, 0, 1⟩])).map (fun rd => (rd.1.lon, rd.1.lat))).length :=
  dbscan_counters_sum (fun _ => ⟨0, 23, 0⟩)
    (fun pts => pts.map (fun _ => ⟨none, PtType.noise⟩))
    (fun _ _ _ _ => 0) [⟨"a", 0, 0, 1⟩] (by decide) (by simp)

theorem dictLookup_replace_ne {V : Type} (d : List (String × V)) (k : String)
    (v : V) (k' : String) (h : k' ≠ k) :
    dictLookup (d.map (fun kv => if kv.1 = k then (k, v) else kv)) k'
      = dictLookup d k' := by
  induction d with
  | nil => rfl
  | cons kv rest ih =>
    by_cases hk : kv.1 = k
    · simp only [List.map_cons, if_pos hk, dictLookup]
      rw [if_neg (fun he => h he.symm), if_neg (fun he => h (hk ▸ he).symm), ih]
    · simp only [List.map_cons, if_neg hk, dictLookup, ih]

theorem dictLookup_replace_eq {V : Type} (d : List (String × V)) (k : String)
    (v : V) (h : d.any (fun kv => decide (kv.1 = k)) = true) :
    dictLookup (d.map (fun kv => if kv.1 = k then (k, v) else kv)) k = some v := by
  induction d with
  | nil => simp at h
  | cons kv rest ih =>
    by_cases hk : kv.1 = k
    · simp [dictLookup, hk]
    · have h' : rest.any (fun kv => decide (kv.1 = k)) = true := by
        simpa [hk] using h
      simp [dictLookup, hk, ih h']

theorem dictLookup_eq_none_of_not_any {V : Type} (d : List (String × V))
    (k : String) (h : d.any (fun kv => decide (kv.1 = k)) = false) :
    dictLookup d k = none := by
  induction d with
  | nil => rfl
  | cons kv rest ih =>
    simp only [List.any_cons, Bool.or_eq_false_iff, decide_eq_false_iff_not] at h
    simp [dictLookup, h.1, ih (by simpa using h.2)]

theorem dictLookup_append {V : Type} (a b : List (String × V)) (k : String) :
    dictLookup (a ++ b) k = (dictLookup a k).or (dictLookup b k) := by
  induction a with
  | nil => simp [dictLookup]
  | cons kv rest ih =>
    by_cases h : kv.1 = k <;> simp [dictLookup, h, ih]

theorem dictLookup_dictInsert {V : Type} (d : List (String × V)) (k : String)
    (v : V) (k' : String) :
    dictLookup (dictInsert d k v) k' = if k' = k then some v else dictLookup d k' := by
  unfold dictInsert
  by_cases hany : d.any (fun kv => decide (kv.1 = k)) = true
  · rw [if_pos hany]
    by_cases hk : k' = k
    · subst hk
      rw [if_pos rfl, dictLookup_replace_eq d k' v hany]
    · rw [if_neg hk, dictLookup_replace_ne d k v k' hk]
  · have hany' : d.any (fun kv => decide (kv.1 = k)) = false := by
      cases h : d.any (fun kv => decide (kv.1 = k))
      · rfl
      · exact absurd h hany
    rw [if_neg hany, dictLookup_append]
    by_cases hk : k' = k
    · subst hk
      rw [dictLookup_eq_none_of_not_any d k' hany']
      simp [dictLookup]
    · have h1 : dictLookup [(k, v)] k' = none := if_neg (fun he => hk he.symm)
      rw [h1, Option.or_none, if_neg hk]

theorem dictLookup_dictMerge {V : Type} (a b : List (String × V)) (k : String) :
    dictLookup (dictMerge a b) k = (dictLookup b.reverse k).or (dictLookup a k) := by
  induction b generalizing a with
  | nil => simp [dictMerge, dictLookup]
  | cons kv rest ih =>
    show dictLookup (dictMerge (dictInsert a kv.1 kv.2) rest) k = _
    rw [ih, dictLookup_dictInsert, List.reverse_cons, dictLookup_append]
    have hkv : dictLookup [kv] k = if kv.1 = k then some kv.2 else none := rfl
    rw [hkv]
    cases h : dictLookup rest.reverse k with
    | none =>
      simp only [Option.none_or]
      by_cases hk : k = kv.1
      · rw [if_pos hk, if_pos hk.symm]
        rfl
      · rw [if_neg hk, if_neg (fun he => hk he.symm), Option.none_or]
    | some w => rfl

theorem dictLookup_foldl_merge {I V : Type} (input : I)
    (ms : List (UserMeasure I V)) (a : List (String × V)) (k : String) :
    dictLookup (ms.foldl (fun results m => dictMerge results (measureOutput m input)) a) k
      = (ms.reverse.findSome?
          (fun m => dictLookup (measureOutput m input).reverse k)).or (dictLookup a k) := by
  induction ms generalizing a with
  | nil => simp
  | cons m rest ih =>
    simp only [List.foldl_cons, List.reverse_cons, List.findSome?_append]
    rw [ih, dictLookup_dictMerge]
    have hone : List.findSome?
        (fun mm => dictLookup (measureOutput mm input).reverse k) [m]
        = dictLookup (measureOutput m input).reverse k := by
      cases h : dictLookup (measureOutput m input).reverse k <;>
        simp [List.findSome?, h]
    rw [hone]
    cases dictLookup (measureOutput m input).reverse k <;>
      cases rest.reverse.findSome?
        (fun mm => dictLookup (measureOutput mm input).reverse k) <;>
        cases dictLookup a k <;> rfl

/-- Claim C9, counterexample: two measures that both emit the key "k";
`run_all_measures` silently returns the later measure's value, with the
earlier value gone and no error surfaced. -/
theorem run_all_measures_overwrites_silently :
    run_all_measures [⟨"m1", fun _ => Sum.inr [("k", 1)]⟩,
        ⟨"m2", fun _ => Sum.inr [("k", 2)]⟩] () = [("k", (2 : ℕ))] ∧
      dictLookup (run_all_measures [⟨"m1", fun _ => Sum.inr [("k", 1)]⟩,
        ⟨"m2", fun _ => Sum.inr [("k", 2)]⟩] ()) "k" ≠ some 1 :=
  ⟨rfl, by decide⟩

/-- Claim C9, amended: merging the measures' outputs is silent
last-writer-wins — for every key, the merged record's value is the last
value emitted for that key by the last measure that emits it, and no key
collision is surfaced as an error. -/
theorem run_all_measures_last_writer_wins {I V : Type}
    (measures : List (UserMeasure I V)) (input : I) (k : String) :
    dictLookup (run_all_measures measures input) k
      = measures.reverse.findSome?
          (fun m => dictLookup (measureOutput m input).reverse k) := by
  unfold run_all_measures
  rw [dictLookup_foldl_merge]
  cases measures.reverse.findSome?
      (fun m => dictLookup (measureOutput m input).reverse k) <;>
    simp [dictLookup]

theorem keyLt_trans {a b c : BurstKey} (h1 : KeyLt a b) (h2 : KeyLt b c) :
    KeyLt a c := by
  unfold KeyLt at h1 h2 ⊢
  rcases h1 with h1 | ⟨e1, h1⟩ <;> rcases h2 with h2 | ⟨e2, h2⟩
  · exact Or.inl (lt_trans h1 h2)
  · exact Or.inl (e2 ▸ h1)
  · exact Or.inl (e1 ▸ h2)
  · refine Or.inr ⟨e1.trans e2, ?_⟩
    rcases h1 with h1 | ⟨f1, h1⟩ <;> rcases h2 with h2 | ⟨f2, h2⟩
    · exact Or.inl (lt_trans h1 h2)
    · exact Or.inl (f2 ▸ h1)
    · exact Or.inl (f1 ▸ h2)
    · exact Or.inr ⟨f1.trans f2, lt_trans h1 h2⟩

theorem keyLt_total {a b : BurstKey} (h : a ≠ b) : KeyLt a b ∨ KeyLt b a := by
  unfold KeyLt
  rcases lt_trichotomy a.1 b.1 with h1 | h1 | h1
  · exact Or.inl (Or.inl h1)
  · rcases lt_trichotomy a.2.1 b.2.1 with h2 | h2 | h2
    · exact Or.inl (Or.inr ⟨h1, Or.inl h2⟩)
    · rcases lt_trichotomy a.2.2 b.2.2 with h3 | h3 | h3
      · exact Or.inl (Or.inr ⟨h1, Or.inr ⟨h2, h3⟩⟩)
      · refine absurd ?_ h
        obtain ⟨a1, a2, a3⟩ := a
        obtain ⟨b1, b2, b3⟩ := b
        simp_all
      · exact Or.inr (Or.inr ⟨h1.symm, Or.inr ⟨h2.symm, h3⟩⟩)
    · exact Or.inr (Or.inr ⟨h1.symm, Or.inl h2⟩)
  · exact Or.inr (Or.inl h1)

theorem mem_insertKeySorted {x k : BurstKey} {l : List BurstKey} :
    x ∈ insertKeySorted k l ↔ x = k ∨ x ∈ l := by
  induction l with
  | nil => simp [insertKeySorted]
  | cons k' rest ih =>
    rw [insertKeySorted]
    by_cases he : k = k'
    · rw [if_pos he]
      subst he
      simp only [List.mem_cons]
      tauto
    · rw [if_neg he]
      by_cases hlt : KeyLt k k'
      · rw [if_pos hlt]
        simp only [List.mem_cons]
      · rw [if_neg hlt]
        simp only [List.mem_cons, ih]
        tauto

theorem pairwise_insertKeySorted (k : BurstKey) (l : List BurstKey)
    (h : l.Pairwise KeyLt) : (insertKeySorted k l).Pairwise KeyLt := by
  induction l with
  | nil => simp [insertKeySorted]
  | cons k' rest ih =>
    rw [insertKeySorted]
    by_cases he : k = k'
    · rw [if_pos he]
      exact h
    · rw [if_neg he]
      rcases List.pairwise_cons.mp h with ⟨hk', hrest⟩
      by_cases hlt : KeyLt k k'
      · rw [if_pos hlt]
        refine List.Pairwise.cons ?_ h
        intro x hx
        rcases List.mem_cons.mp hx with rfl | hx
        · exact hlt
        · exact keyLt_trans hlt (hk' x hx)
      · rw [if_neg hlt]
        refine List.Pairwise.cons ?_ (ih hrest)
        intro x hx
        rcases mem_insertKeySorted.mp hx with rfl | hx
        · rcases keyLt_total he with h1 | h1
          · exact absurd h1 hlt
          · exact h1
        · exact hk' x hx

theorem sortedBurstKeys_spec (l : List Record) :
    (sortedBurstKeys l).Pairwise KeyLt ∧
      ∀ x, x ∈ sortedBurstKeys l ↔ ∃ r ∈ l, burstKey r = x := by
  have main : ∀ (l : List Record) (acc : List BurstKey), acc.Pairwise KeyLt →
      (l.foldl (fun acc r => insertKeySorted (burstKey r) acc) acc).Pairwise KeyLt ∧
      ∀ x, x ∈ l.foldl (fun acc r => insertKeySorted (burstKey r) acc) acc ↔
        (∃ r ∈ l, burstKey r = x) ∨ x ∈ acc := by
    intro l
    induction l with
    | nil => exact fun acc hacc => ⟨hacc, by simp⟩
    | cons r rest ih =>
      intro acc hacc
      obtain ⟨hp, hm⟩ := ih (insertKeySorted (burstKey r) acc)
        (pairwise_insertKeySorted _ _ hacc)
      refine ⟨hp, fun x => ?_⟩
      rw [List.foldl_cons, hm x, mem_insertKeySorted]
      constructor
      · rintro ((⟨r', hr', rfl⟩) | (rfl | hx))
        · exact Or.inl ⟨r', List.mem_cons_of_mem _ hr', rfl⟩
        · exact Or.inl ⟨r, List.mem_cons_self _ _, rfl⟩
        · exact Or.inr hx
      · rintro (⟨r', hr', rfl⟩ | hx)
        · rcases List.mem_cons.mp hr' with rfl | hr'
          · exact Or.inr (Or.inl rfl)
          · exact Or.inl ⟨r', hr', rfl⟩
        · exact Or.inr (Or.inr hx)
  obtain ⟨hp, hm⟩ := main l [] (List.Pairwise.nil)
  exact ⟨hp, fun x => by rw [sortedBurstKeys, hm x]; simp⟩

theorem map_burstKey_dedupBurst (l : List Record) :
    (dedupBurst l).map burstKey = sortedBurstKeys l := by
  unfold dedupBurst
  have main : ∀ keys : List BurstKey, (∀ k ∈ keys, ∃ r ∈ l, burstKey r = k) →
      (keys.filterMap (fun k => l.find? (fun r => decide (burstKey r = k)))).map
        burstKey = keys := by
    intro keys
    induction keys with
    | nil => intro _; rfl
    | cons k rest ih =>
      intro hk
      obtain ⟨r, hr, hbk⟩ := hk k (List.mem_cons_self _ _)
      have hsome : (l.find? (fun r => decide (burstKey r = k))).isSome := by
        rw [List.find?_isSome]
        exact ⟨r, hr, by simp [hbk]⟩
      obtain ⟨r0, hr0⟩ := Option.isSome_iff_exists.mp hsome
      have hbk0 : burstKey r0 = k := by simpa using List.find?_some hr0
      rw [List.filterMap_cons, hr0, List.map_cons, hbk0,
        ih (fun k' hk' => hk k' (List.mem_cons_of_mem _ hk'))]
  exact main _ (fun k hk => ((sortedBurstKeys_spec l).2 k).mp hk)

/-- Claim C4, counterexample: two records with distinct keys, given in
descending key order; deduplication keeps both but returns them sorted by
key, so the original relative order is not preserved. -/
theorem dedupBurst_reorders :
    dedupBurst [⟨"b", 0, 0, 1⟩, ⟨"a", 0, 0, 2⟩]
        = [⟨"a", 0, 0, 2⟩, ⟨"b", 0, 0, 1⟩] ∧
      ([(⟨"a", 0, 0, 2⟩ : Record), ⟨"b", 0, 0, 1⟩]
        ≠ [⟨"b", 0, 0, 1⟩, ⟨"a", 0, 0, 2⟩]) := by
  have hab : KeyLt ("a", 0, 0) ("b", 0, 0) :=
    Or.inl (show ("a" : String) < "b" from
      String.lt_iff_toList_lt.mpr (List.Lex.rel (by decide)))
  have hne : ¬ ((("a", 0, 0) : BurstKey) = ("b", 0, 0)) := by decide
  refine ⟨?_, by decide⟩
  have hkeys : sortedBurstKeys [⟨"b", 0, 0, 1⟩, ⟨"a", 0, 0, 2⟩]
      = [("a", 0, 0), ("b", 0, 0)] := by
    show insertKeySorted ("a", 0, 0) [("b", 0, 0)] = [("a", 0, 0), ("b", 0, 0)]
    rw [insertKeySorted, if_neg hne, if_pos hab]
  unfold dedupBurst
  rw [hkeys]
  rfl

/-- Claim C4, amended: burst deduplication keeps exactly the first record
of each group of records sharing the key `(timestamp-string, lon, lat)`,
returns the kept records sorted by ascending key (not in original
relative order), and the pipeline counter `n_burst_tweets` equals
`n_original - n_deduplicated`. -/
theorem dedupBurst_amended (l : List Record) :
    (∀ r ∈ dedupBurst l,
      l.find? (fun r' => decide (burstKey r' = burstKey r)) = some r) ∧
    (∀ r ∈ l, ∃ r' ∈ dedupBurst l, burstKey r' = burstKey r) ∧
    ((dedupBurst l).map burstKey).Pairwise KeyLt ∧
    (∀ (loc : Record → LocalDT) (clusterer : List (ℚ × ℚ) → List Assignment)
      (dist : ℚ → ℚ → ℚ → ℚ → ℚ),
      (dbscan loc clusterer dist l).n_burst_tweets
        = l.length - (dedupBurst l).length) := by
  refine ⟨?_, ?_, ?_, ?_⟩
  · intro r hr
    obtain ⟨k, hk, hfind⟩ := List.mem_filterMap.mp hr
    have hbk : burstKey r = k := by simpa using List.find?_some hfind
    rw [hbk]
    exact hfind
  · intro r hr
    have hk : burstKey r ∈ sortedBurstKeys l :=
      ((sortedBurstKeys_spec l).2 _).mpr ⟨r, hr, rfl⟩
    have hsome : (l.find? (fun r' => decide (burstKey r' = burstKey r))).isSome := by
      rw [List.find?_isSome]
      exact ⟨r, hr, by simp⟩
    obtain ⟨r0, hr0⟩ := Option.isSome_iff_exists.mp hsome
    refine ⟨r0, List.mem_filterMap.mpr ⟨burstKey r, hk, hr0⟩, ?_⟩
    simpa using List.find?_some hr0
  · rw [map_burstKey_dedupBurst]
    exact (sortedBurstKeys_spec l).1
  · intro loc clusterer dist
    unfold dbscan
    dsimp only
    split
    · rfl
    · split
      · rfl
      · split
        · rfl
        · split <;> rfl

theorem foldl_max_mem (xs : List ℚ) (a : ℚ) :
    xs.foldl max a = a ∨ xs.foldl max a ∈ xs := by
  induction xs generalizing a with
  | nil => exact Or.inl rfl
  | cons y ys ih =>
    rw [List.foldl_cons]
    rcases ih (max a y) with h | h
    · rcases max_choice a y with he | he
      · exact Or.inl (by rw [h, he])
      · exact Or.inr (by rw [h, he]; exact List.mem_cons_self _ _)
    · exact Or.inr (List.mem_cons_of_mem _ h)

theorem le_foldl_max (xs : List ℚ) (a : ℚ) : a ≤ xs.foldl max a := by
  induction xs generalizing a with
  | nil => exact le_refl a
  | cons y ys ih => exact le_trans (le_max_left a y) (ih (max a y))

theorem foldl_max_ub (xs : List ℚ) : ∀ (a x : ℚ), x ∈ xs → x ≤ xs.foldl max a := by
  induction xs with
  | nil => exact fun a x hx => absurd hx (List.not_mem_nil x)
  | cons y ys ih =>
    intro a x hx
    rw [List.foldl_cons]
    rcases List.mem_cons.mp hx with rfl | hx
    · exact le_trans (le_max_right a x) (le_foldl_max ys (max a x))
    · exact ih (max a y) x hx

theorem listMaxQ_mem (l : List ℚ) (h : l ≠ []) : listMaxQ l ∈ l := by
  cases l with
  | nil => exact absurd rfl h
  | cons x xs =>
    rw [listMaxQ]
    rcases foldl_max_mem xs x with h1 | h1
    · rw [h1]
      exact List.mem_cons_self _ _
    · exact List.mem_cons_of_mem _ h1

theorem le_listMaxQ (l : List ℚ) (x : ℚ) (hx : x ∈ l) : x ≤ listMaxQ l := by
  cases l with
  | nil => exact absurd hx (List.not_mem_nil x)
  | cons y ys =>
    rw [listMaxQ]
    rcases List.mem_cons.mp hx with rfl | h1
    · exact le_foldl_max ys x
    · exact foldl_max_ub ys y x h1

theorem foldl_min_mem (xs : List ℚ) (a : ℚ) :
    xs.foldl min a = a ∨ xs.foldl min a ∈ xs := by
  induction xs generalizing a with
  | nil => exact Or.inl rfl
  | cons y ys ih =>
    rw [List.foldl_cons]
    rcases ih (min a y) with h | h
    · rcases min_choice a y with he | he
      · exact Or.inl (by rw [h, he])
      · exact Or.inr (by rw [h, he]; exact List.mem_cons_self _ _)
    · exact Or.inr (List.mem_cons_of_mem _ h)

theorem foldl_min_le (xs : List ℚ) (a : ℚ) : xs.foldl min a ≤ a := by
  induction xs generalizing a with
  | nil => exact le_refl a
  | cons y ys ih => exact le_trans (ih (min a y)) (min_le_left a y)

theorem foldl_min_lb (xs : List ℚ) : ∀ (a x : ℚ), x ∈ xs → xs.foldl min a ≤ x := by
  induction xs with
  | nil => exact fun a x hx => absurd hx (List.not_mem_nil x)
  | cons y ys ih =>
    intro a x hx
    rw [List.foldl_cons]
    rcases List.mem_cons.mp hx with rfl | hx
    · exact le_trans (foldl_min_le ys (min a x)) (min_le_right a x)
    · exact ih (min a y) x hx

theorem listMinQ_mem (l : List ℚ) (h : l ≠ []) : listMinQ l ∈ l := by
  cases l with
  | nil => exact absurd rfl h
  | cons x xs =>
    rw [listMinQ]
    rcases foldl_min_mem xs x with h1 | h1
    · rw [h1]
      exact List.mem_cons_self _ _
    · exact List.mem_cons_of_mem _ h1

theorem listMinQ_le (l : List ℚ) (x : ℚ) (hx : x ∈ l) : listMinQ l ≤ x := by
  cases l with
  | nil => exact absurd hx (List.not_mem_nil x)
  | cons y ys =>
    rw [listMinQ]
    rcases List.mem_cons.mp hx with rfl | h1
    · exact foldl_min_le ys x
    · exact foldl_min_lb ys y x h1

theorem count_map_eq_countP (l : List ClusterAgg) (f : ClusterAgg → ℚ) (v : ℚ) :
    (l.map f).count v = l.countP (fun a => decide (f a = v)) := by
  induction l with
  | nil => rfl
  | cons a rest ih =>
    rw [List.map_cons, List.count_cons, List.countP_cons, ih]
    congr 1

theorem countP_one_unique {p : ClusterAgg → Bool} {l : List ClusterAgg}
    (h : l.countP p = 1) :
    ∃ a, a ∈ l ∧ p a = true ∧ ∀ b ∈ l, p b = true → b = a := by
  induction l with
  | nil => simp at h
  | cons x xs ih =>
    rw [List.countP_cons] at h
    by_cases hx : p x = true
    · rw [if_pos hx] at h
      have h0 : xs.countP p = 0 := by omega
      have hnone := List.countP_eq_zero.mp h0
      refine ⟨x, List.mem_cons_self _ _, hx, ?_⟩
      intro b hb hpb
      rcases List.mem_cons.mp hb with rfl | hb
      · rfl
      · exact absurd hpb (hnone b hb)
    · rw [if_neg hx] at h
      have h1 : xs.countP p = 1 := by omega
      obtain ⟨a, ha, hpa, hu⟩ := ih h1
      refine ⟨a, List.mem_cons_of_mem _ ha, hpa, ?_⟩
      intro b hb hpb
      rcases List.mem_cons.mp hb with rfl | hb
      · exact absurd hpb hx
      · exact hu b hb hpb

theorem countP_eq_one_of_unique {p : ClusterAgg → Bool} {l : List ClusterAgg}
    {a : ClusterAgg} (hnd : l.Nodup) (ha : a ∈ l) (hpa : p a = true)
    (hu : ∀ b ∈ l, b ≠ a → p b = false) : l.countP p = 1 := by
  induction l with
  | nil => exact absurd ha (List.not_mem_nil a)
  | cons x xs ih =>
    rw [List.countP_cons]
    rcases List.nodup_cons.mp hnd with ⟨hxn, hnd'⟩
    rcases List.mem_cons.mp ha with rfl | ha'
    · rw [if_pos hpa]
      have h0 : xs.countP p = 0 := by
        rw [List.countP_eq_zero]
        intro b hb
        have hbne : b ≠ a := fun he => hxn (he ▸ hb)
        simp [hu b (List.mem_cons_of_mem _ hb) hbne]
      omega
    · have hxa : x ≠ a := fun he => hxn (he ▸ ha')
      rw [if_neg (by simp [hu x (List.mem_cons_self _ _) hxa])]
      have h1 := ih hnd' ha'
        (fun b hb hbne => hu b (List.mem_cons_of_mem _ hb) hbne)
      omega

theorem head?_eq_of_all_eq {l : List ClusterAgg} {a : ClusterAgg}
    (hne : l ≠ []) (hall : ∀ x ∈ l, x = a) : l.head? = some a := by
  cases l with
  | nil => exact absurd rfl hne
  | cons x xs => rw [List.head?_cons, hall x (List.mem_cons_self _ _)]

theorem find?_eq_some_of_unique {p : ClusterAgg → Bool} {l : List ClusterAgg}
    {a : ClusterAgg} (ha : a ∈ l) (hpa : p a = true)
    (hu : ∀ b ∈ l, p b = true → b = a) : l.find? p = some a := by
  induction l with
  | nil => exact absurd ha (List.not_mem_nil a)
  | cons x xs ih =>
    by_cases hx : p x = true
    · rw [List.find?_cons_of_pos _ hx, hu x (List.mem_cons_self _ _) hx]
    · rw [List.find?_cons_of_neg _ (by simp [hx])]
      rcases List.mem_cons.mp ha with rfl | ha'
      · exact absurd hpa hx
      · exact ih ha' (fun b hb hpb => hu b (List.mem_cons_of_mem _ hb) hpb)

theorem uniqueClusterId_eq_strictWinner (aggs : List ClusterAgg)
    (col : ClusterAgg → ℚ) (measure : List ℚ → ℚ) (ltb : ℚ → ℚ → Bool)
    (hnd : aggs.Nodup)
    (hmem : measure (aggs.map col) ∈ aggs.map col)
    (hub : ∀ x ∈ aggs.map col, x ≠ measure (aggs.map col) →
      ltb x (measure (aggs.map col)) = true)
    (hirr : ∀ x, ltb x x = false)
    (hasym : ∀ x y, ltb x y = true → ltb y x = true → False) :
    uniqueClusterId aggs col measure
      = (strictWinner aggs col ltb).map (fun a => a.cluster_id) := by
  obtain ⟨a0, ha0, ha0v⟩ := List.mem_map.mp hmem
  have hpred : ∀ a ∈ aggs,
      ((aggs.all (fun b => decide (b = a) || ltb (col b) (col a))) = true ↔
        (col a = measure (aggs.map col) ∧
          ∀ b ∈ aggs, b ≠ a → ltb (col b) (col a) = true)) := by
    intro a ha
    rw [List.all_eq_true]
    constructor
    · intro hall
      have hcav : col a = measure (aggs.map col) := by
        rcases (by simpa using hall a0 ha0 :
            a0 = a ∨ ltb (col a0) (col a) = true) with rfl | hlt
        · exact ha0v
        · by_cases hca : col a = measure (aggs.map col)
          · exact hca
          · have h2 := hub (col a) (List.mem_map_of_mem col ha) hca
            rw [ha0v] at hlt
            exact (hasym _ _ hlt h2).elim
      refine ⟨hcav, fun b hb hbne => ?_⟩
      rcases (by simpa using hall b hb :
          b = a ∨ ltb (col b) (col a) = true) with rfl | hlt
      · exact absurd rfl hbne
      · exact hlt
    · rintro ⟨hcav, hall⟩ b hb
      by_cases hba : b = a
      · simp [hba]
      · simp [hall b hb hba]
  by_cases hcnt : (aggs.map col).count (measure (aggs.map col)) = 1
  · have hcntP : aggs.countP
        (fun a => decide (col a = measure (aggs.map col))) = 1 := by
      rw [← count_map_eq_countP]
      exact hcnt
    obtain ⟨a1, ha1, hpa1, hu1⟩ := countP_one_unique hcntP
    have ha1v : col a1 = measure (aggs.map col) := by simpa using hpa1
    have huv : ∀ b ∈ aggs, col b = measure (aggs.map col) → b = a1 :=
      fun b hb hbv => hu1 b hb (by simpa using hbv)
    have hfilter : (aggs.filter
        (fun a => decide (col a = measure (aggs.map col)))).head? = some a1 := by
      apply head?_eq_of_all_eq
      · intro hemp
        have hmem1 : a1 ∈ aggs.filter
            (fun a => decide (col a = measure (aggs.map col))) :=
          List.mem_filter.mpr ⟨ha1, by simpa using ha1v⟩
        rw [hemp] at hmem1
        exact absurd hmem1 (List.not_mem_nil a1)
      · intro x hx
        rcases List.mem_filter.mp hx with ⟨hxa, hxv⟩
        exact huv x hxa (by simpa using hxv)
    have hwin : strictWinner aggs col ltb = some a1 := by
      apply find?_eq_some_of_unique ha1
      · rw [hpred a1 ha1]
        refine ⟨ha1v, fun b hb hbne => ?_⟩
        have hbv : col b ≠ measure (aggs.map col) :=
          fun hbv => hbne (huv b hb hbv)
        rw [ha1v]
        exact hub (col b) (List.mem_map_of_mem col hb) hbv
      · intro b hb hpb
        exact huv b hb ((hpred b hb).mp hpb).1
    rw [hwin]
    unfold uniqueClusterId
    rw [if_pos hcnt, hfilter]
  · have hwin : strictWinner aggs col ltb = none := by
      rw [strictWinner, List.find?_eq_none]
      intro a ha hpa
      obtain ⟨hcav, hball⟩ := (hpred a ha).mp hpa
      have h1 : aggs.countP
          (fun b => decide (col b = measure (aggs.map col))) = 1 := by
        apply countP_eq_one_of_unique hnd ha (by simpa using hcav)
        intro b hb hbne
        by_cases hbv : col b = measure (aggs.map col)
        · have := hball b hb hbne
          rw [hbv, hcav] at this
          rw [hirr] at this
          exact absurd this (by simp)
        · simpa using hbv
      rw [← count_map_eq_countP] at h1
      exact hcnt h1
    rw [hwin]
    unfold uniqueClusterId
    rw [if_neg hcnt]
    rfl

/-- Claim C1: for every non-empty duplicate-free list of cluster
aggregates, `determine_home_cluster` agrees with the specification's
ordered policy: the first of the three rules — strictly-maximum count,
strictly-minimum `max_dist_from_centroid`, strictly-maximum `time_range`
— that has a unique winner decides, with reasons "only one max cluster",
"cluster with minimum distance" and "cluster with maximum time range"
respectively, and `(none, none)` is returned when no rule has a unique
winner. -/
theorem determine_home_cluster_follows_spec (aggs : List ClusterAgg)
    (hne : aggs ≠ []) (hnd : aggs.Nodup) :
    determineHomeCluster aggs = specHomeCluster aggs := by
  have hmapne : ∀ col : ClusterAgg → ℚ, aggs.map col ≠ [] := by
    intro col h
    exact hne (List.map_eq_nil_iff.mp h)
  have h1 := uniqueClusterId_eq_strictWinner aggs (fun a => (a.count : ℚ))
    listMaxQ (fun x y => decide (x < y)) hnd
    (listMaxQ_mem _ (hmapne _))
    (fun x hx hxne => decide_eq_true
      (lt_of_le_of_ne (le_listMaxQ _ x hx) hxne))
    (fun x => by simp)
    (fun x y hx hy =>
      absurd (of_decide_eq_true hx) (lt_asymm (of_decide_eq_true hy)))
  have h2 := uniqueClusterId_eq_strictWinner aggs
    (fun a => a.max_dist_from_centroid) listMinQ (fun x y => decide (y < x)) hnd
    (listMinQ_mem _ (hmapne _))
    (fun x hx hxne => decide_eq_true
      (lt_of_le_of_ne (listMinQ_le _ x hx) (Ne.symm hxne)))
    (fun x => by simp)
    (fun x y hx hy =>
      absurd (of_decide_eq_true hx) (lt_asymm (of_decide_eq_true hy)))
  have h3 := uniqueClusterId_eq_strictWinner aggs (fun a => a.time_range)
    listMaxQ (fun x y => decide (x < y)) hnd
    (listMaxQ_mem _ (hmapne _))
    (fun x hx hxne => decide_eq_true
      (lt_of_le_of_ne (le_listMaxQ _ x hx) hxne))
    (fun x => by simp)
    (fun x y hx hy =>
      absurd (of_decide_eq_true hx) (lt_asymm (of_decide_eq_true hy)))
  rw [determineHomeCluster, specHomeCluster, h1, h2, h3]
  cases strictWinner aggs (fun a => (a.count : ℚ)) (fun x y => decide (x < y)) with
  | some a => rfl
  | none =>
    cases strictWinner aggs (fun a => a.max_dist_from_centroid)
        (fun x y => decide (y < x)) with
    | some a => rfl
    | none =>
      cases strictWinner aggs (fun a => a.time_range)
          (fun x y => decide (x < y)) with
      | some a => rfl
      | none => rfl

theorem determine_home_cluster_follows_spec_witness :
    determineHomeCluster [⟨0, 0, 0, 100, 10, 5⟩, ⟨1, 0, 0, 50, 25, 5⟩]
        = specHomeCluster [⟨0, 0, 0, 100, 10, 5⟩, ⟨1, 0, 0, 50, 25, 5⟩] ∧
      determineHomeCluster [⟨0, 0, 0, 100, 10, 5⟩, ⟨1, 0, 0, 50, 25, 5⟩]
        = (some 0, some "cluster with minimum distance") :=
  ⟨determine_home_cluster_follows_spec _ (by decide) (by decide), by decide⟩

theorem haversine_code_pt1 : haversine 180 60 0 60 = earthRadius * Real.pi := by
  unfold haversine radians
  dsimp only
  have e1 : ((0 : ℝ) - 180) * Real.pi / 180 / 2 = -(Real.pi / 2) := by ring
  have e2 : ((60 : ℝ) - 60) * Real.pi / 180 / 2 = 0 := by ring
  have e3 : (180 : ℝ) * Real.pi / 180 = Real.pi := by ring
  have e4 : (0 : ℝ) * Real.pi / 180 = 0 := by ring
  rw [e1, e2, e3, e4, Real.sin_neg, Real.sin_pi_div_two, Real.sin_zero,
    Real.cos_pi, Real.cos_zero]
  have e5 : (-(1 : ℝ)) ^ 2 + -1 * 1 * (0 : ℝ) ^ 2 = 1 := by ring
  rw [e5, Real.sqrt_one, Real.arcsin_one]
  ring

theorem haversine_code_pt2 : haversine 180 60 360 60 = earthRadius * Real.pi := by
  unfold haversine radians
  dsimp only
  have e1 : ((360 : ℝ) - 180) * Real.pi / 180 / 2 = Real.pi / 2 := by ring
  have e2 : ((60 : ℝ) - 60) * Real.pi / 180 / 2 = 0 := by ring
  have e3 : (180 : ℝ) * Real.pi / 180 = Real.pi := by ring
  have e4 : (360 : ℝ) * Real.pi / 180 = 2 * Real.pi := by ring
  rw [e1, e2, e3, e4, Real.sin_pi_div_two, Real.sin_zero, Real.cos_pi,
    Real.cos_two_pi]
  have e5 : (1 : ℝ) ^ 2 + -1 * 1 * (0 : ℝ) ^ 2 = 1 := by ring
  rw [e5, Real.sqrt_one, Real.arcsin_one]
  ring

theorem haversine_spec_pt1 : haversine 60 180 60 0 = earthRadius * (Real.pi / 3) := by
  unfold haversine radians
  dsimp only
  have e1 : ((60 : ℝ) - 60) * Real.pi / 180 / 2 = 0 := by ring
  have e2 : ((0 : ℝ) - 180) * Real.pi / 180 / 2 = -(Real.pi / 2) := by ring
  have e3 : (60 : ℝ) * Real.pi / 180 = Real.pi / 3 := by ring
  rw [e1, e2, e3, Real.sin_zero, Real.sin_neg, Real.sin_pi_div_two,
    Real.cos_pi_div_three]
  have e4 : (0 : ℝ) ^ 2 + 1 / 2 * (1 / 2) * (-(1 : ℝ)) ^ 2 = (1 / 2) ^ 2 := by ring
  rw [e4, Real.sqrt_sq (by norm_num : (0 : ℝ) ≤ 1 / 2)]
  rw [show (1 / 2 : ℝ) = Real.sin (Real.pi / 6) from (Real.sin_pi_div_six).symm]
  rw [Real.arcsin_sin (by linarith [Real.pi_pos]) (by linarith [Real.pi_pos])]
  ring

theorem haversine_spec_pt2 : haversine 60 180 60 360 = earthRadius * (Real.pi / 3) := by
  unfold haversine radians
  dsimp only
  have e1 : ((60 : ℝ) - 60) * Real.pi / 180 / 2 = 0 := by ring
  have e2 : ((360 : ℝ) - 180) * Real.pi / 180 / 2 = Real.pi / 2 := by ring
  have e3 : (60 : ℝ) * Real.pi / 180 = Real.pi / 3 := by ring
  rw [e1, e2, e3, Real.sin_zero, Real.sin_pi_div_two, Real.cos_pi_div_three]
  have e4 : (0 : ℝ) ^ 2 + 1 / 2 * (1 / 2) * (1 : ℝ) ^ 2 = (1 / 2) ^ 2 := by ring
  rw [e4, Real.sqrt_sq (by norm_num : (0 : ℝ) ≤ 1 / 2)]
  rw [show (1 / 2 : ℝ) = Real.sin (Real.pi / 6) from (Real.sin_pi_div_six).symm]
  rw [Real.arcsin_sin (by linarith [Real.pi_pos]) (by linarith [Real.pi_pos])]
  ring

/-- Claim C2, evaluation at the failing input: for the cluster of the two
core points (lon 0, lat 60) and (lon 360, lat 60) the code's
`max_dist_from_centroid` is `earthRadius * pi`, because the source passes
the centroid's longitude to the haversine latitude parameter and vice
versa, while the true maximal great-circle haversine distance from the
centroid (lon 180, lat 60) — latitudes in the latitude slots — is
`earthRadius * pi / 3`; the two quantities differ. -/
theorem create_cluster_aggregates_transposes_haversine :
    (create_cluster_aggregates c2rows).map (fun a => a.max_dist_from_centroid)
        = [earthRadius * Real.pi] ∧
      specMaxDistFromCentroid c2rows 0 = earthRadius * (Real.pi / 3) ∧
      earthRadius * Real.pi ≠ earthRadius * (Real.pi / 3) := by
  have hc1 : ((0 : ℝ) + (360 + 0)) / 2 = 180 := by norm_num
  have hc2 : ((60 : ℝ) + (60 + 0)) / 2 = 60 := by norm_num
  refine ⟨?_, ?_, ?_⟩
  · have hstep : (create_cluster_aggregates c2rows).map
        (fun a => a.max_dist_from_centroid)
        = [max (haversine (((0 : ℝ) + (360 + 0)) / 2) (((60 : ℝ) + (60 + 0)) / 2) 0 60)
            (haversine (((0 : ℝ) + (360 + 0)) / 2) (((60 : ℝ) + (60 + 0)) / 2) 360 60)] := rfl
    rw [hstep, hc1, hc2, haversine_code_pt1, haversine_code_pt2, max_self]
  · have hstep : specMaxDistFromCentroid c2rows 0
        = max (haversine (((60 : ℝ) + (60 + 0)) / 2) (((0 : ℝ) + (360 + 0)) / 2) 60 0)
            (haversine (((60 : ℝ) + (60 + 0)) / 2) (((0 : ℝ) + (360 + 0)) / 2) 60 360) := rfl
    rw [hstep, hc1, hc2, haversine_spec_pt1, haversine_spec_pt2, max_self]
  · intro h
    have hR : (earthRadius : ℝ) ≠ 0 := by
      unfold earthRadius
      norm_num
    have h2 := mul_left_cancel₀ hR h
    have h3 := Real.pi_pos
    linarith

end HomeLoc
